import Mathlib

/-!
Verification development for the `simmon` experiment-tracking library
(`simmon/simmon.py`).  The definitions below are a shallow embedding of the
data model and operations of the source: `Tracker.__init__`, `Tracker.update`,
`Tracker.save` / `_load_to_tracker`, `Toggle.__init__` / `Toggle.toggled`,
the button-press handler of `_toggle_window`, `_refresh_monitor_toggles`,
the message loop of `_live_view_process`, and `_update_live_view_axes`.

Python numbers are modelled at the exact-decimal level: an `int` is an
unbounded integer, a `float` is a decimal `m / 10 ^ e`.  Python 3 guarantees
`float(str(x)) == x` (shortest round-trip repr), so at this abstraction the
stringify / parse pair of the save / load path is value-exact, which is what
the code relies on.  File contents are modelled as lists of lines, each line
a list of characters; `str.split` / `str.join` are modelled directly.
-/

namespace Simmon

/-- Model of a Python number: `pint n` is an `int`, `pfloat m e` is a `float`
whose exact decimal value is `m / 10 ^ e` (the value obtained by parsing a
decimal literal with `e` fractional digits). -/
inductive PyNum where
  | pint : Int → PyNum
  | pfloat : Int → Nat → PyNum
deriving DecidableEq, Repr

/-- Numeric value of a `PyNum`, for Python `==` comparisons. -/
def PyNum.toRat : PyNum → ℚ
  | .pint n => (n : ℚ)
  | .pfloat m e => (m : ℚ) / (10 : ℚ) ^ e

/-- Whether the value is a Python `float` (as opposed to an `int`). -/
def PyNum.isFloat : PyNum → Bool
  | .pint _ => false
  | .pfloat _ _ => true

/-- Character for a decimal digit (`0 ≤ d ≤ 9`). -/
def digitChar (d : Nat) : Char := Char.ofNat (48 + d)

/-- Numeric value of a decimal digit character. -/
def charDigit (c : Char) : Nat := c.toNat - 48

/-- Decimal digits of a natural number, least significant first.  The first
argument is fuel (structural recursion so that everything computes by
kernel reduction); `natDigitsRev n` below always supplies enough fuel. -/
def natDigitsRevFuel : Nat → Nat → List Nat
  | 0, n => [n % 10]
  | fuel + 1, n => if n < 10 then [n] else n % 10 :: natDigitsRevFuel fuel (n / 10)

/-- Decimal digits of a natural number, least significant first. -/
def natDigitsRev (n : Nat) : List Nat := natDigitsRevFuel n n

/-- Decimal string of a natural number, as Python `str` prints it. -/
def natStr (n : Nat) : List Char := ((natDigitsRev n).reverse).map digitChar

/-- Value of a most-significant-first decimal digit list. -/
def parseNatList (l : List Nat) : Nat := l.foldl (fun a d => 10 * a + d) 0

/-- Value of a most-significant-first string of decimal digit characters. -/
def parseDigits (l : List Char) : Nat := l.foldl (fun a c => 10 * a + charDigit c) 0

/-- Model of Python `str` on an `int`. -/
def intStr (n : Int) : List Char :=
  if n < 0 then '-' :: natStr n.natAbs else natStr n.natAbs

/-- Left-pad a digit string with zeros up to length `k`. -/
def padLeft (l : List Char) (k : Nat) : List Char :=
  List.replicate (k - l.length) '0' ++ l

/-- Unsigned part of Python `str` on the float `m / 10 ^ e`: with `e = 0` the
digits are followed by `.0` (Python always prints a decimal point), otherwise
the digits are zero-padded to at least `e + 1` places and the point is
inserted before the last `e` of them. -/
def floatCore (m : Int) (e : Nat) : List Char :=
  if e = 0 then natStr m.natAbs ++ ['.', '0']
  else
    let s := padLeft (natStr m.natAbs) (e + 1)
    s.take (s.length - e) ++ '.' :: s.drop (s.length - e)

/-- Model of Python `str` on a `float` (exact-decimal abstraction). -/
def floatStr (m : Int) (e : Nat) : List Char :=
  if m < 0 then '-' :: floatCore m e else floatCore m e

/-- Model of Python `str(v)` as used by `Tracker.update` / `Tracker.save`. -/
def pyStr : PyNum → List Char
  | .pint n => intStr n
  | .pfloat m e => floatStr m e

/-- Model of Python `string.split(sep)` for a one-character separator. -/
def splitSep (sep : Char) : List Char → List (List Char)
  | [] => [[]]
  | c :: cs =>
    if c = sep then [] :: splitSep sep cs
    else
      match splitSep sep cs with
      | [] => [[c]]
      | p :: ps => (c :: p) :: ps

/-- Model of Python `sep.join(parts)` for a one-character separator. -/
def joinSep (sep : Char) : List (List Char) → List Char
  | [] => []
  | [p] => p
  | p :: q :: rest => p ++ sep :: joinSep sep (q :: rest)

/-- Strip an optional leading minus sign. -/
def splitSign (l : List Char) : Bool × List Char :=
  if l.head? = some '-' then (true, l.tail) else (false, l)

/-- Apply a sign flag to a magnitude. -/
def intOfSign (neg : Bool) (n : Nat) : Int :=
  if neg then -(n : Int) else (n : Int)

/-- True when every character is a decimal digit. -/
def allDigits (l : List Char) : Bool := l.all Char.isDigit

/-- Model of Python `float(s)` on the decimal grammar it accepts (optional
sign, digits, optional single decimal point); anything else raises, which is
modelled by `none`. -/
def parseFloat (l : List Char) : Option PyNum :=
  let sg := splitSign l
  match splitSep '.' sg.2 with
  | [w] =>
    if !w.isEmpty && allDigits w then
      some (.pfloat (intOfSign sg.1 (parseDigits w)) 0)
    else none
  | [w, f] =>
    if !(w ++ f).isEmpty && allDigits w && allDigits f then
      some (.pfloat (intOfSign sg.1 (parseDigits (w ++ f))) f.length)
    else none
  | _ => none

/-- Model of a Python object passed as a dependent-variable name: either a
`str` or some other object carrying its type name (for the error message). -/
inductive PyObj where
  | str : String → PyObj
  | nonStr : String → PyObj
deriving DecidableEq, Repr

/-- Whether the object is a Python string. -/
def PyObj.isStr : PyObj → Bool
  | .str _ => true
  | .nonStr _ => false

/-- Python `type(obj)` rendered for the `ValueError` message. -/
def PyObj.typeName : PyObj → String
  | .str _ => "str"
  | .nonStr t => t

/-- The `ValueError`s raised by `Tracker.__init__`. -/
inductive InitError where
  | noDepNames
  | nonStringName (tyName : String)
deriving DecidableEq, Repr

/-- The exception raised by `Tracker.update` on an arity mismatch (the spec
calls it `ArityError`); it carries the value count and the label count from
the message. -/
inductive TrackerError where
  | arityError (valueCount labelCount : Nat)
deriving DecidableEq, Repr

/-- In-memory state of a `Tracker`: the variable names fixed at construction
and the append-only data sequence (`self.data`). -/
structure TrackerState where
  ind_var_name : String
  dep_var_names : List PyObj
  data : List (List PyNum)
  autosave : Bool
deriving DecidableEq, Repr

/-- Whether an `Except` result is a success. -/
def exceptOk {ε α : Type} : Except ε α → Bool
  | .ok _ => true
  | .error _ => false

/-- Model of `Tracker.__init__` (the validation of `dep_var_names` and the
construction of the tracker state): raises `ValueError` when no dependent
names are given, or when the first offending name is not a string. -/
def Tracker.init (ind_var_name : String) (dep_var_names : List PyObj)
    (autosave : Bool) : Except InitError TrackerState :=
  if dep_var_names.length = 0 then .error InitError.noDepNames
  else
    match dep_var_names.find? (fun o => !(PyObj.isStr o)) with
    | some bad => .error (InitError.nonStringName (PyObj.typeName bad))
    | none => .ok { ind_var_name, dep_var_names, data := [], autosave := autosave }

/-- Model of `Tracker.update`: the result is the post-call tracker state
together with the raised exception, if any.  The arity check comes first in
the source, before any mutation, so on the error path the state is exactly
the entry state. -/
def Tracker.update (t : TrackerState) (ind_var : PyNum) (dep_vars : List PyNum) :
    TrackerState × Option TrackerError :=
  if dep_vars.length ≠ t.dep_var_names.length then
    (t, some (TrackerError.arityError (1 + dep_vars.length) (t.dep_var_names.length + 1)))
  else
    ({ t with data := t.data ++ [ind_var :: dep_vars] }, none)

/-- Model of the file content written by `Tracker.save`: one line per tuple,
comma-joined stringified values, in data order. -/
def Tracker.saveLines (t : TrackerState) : List (List Char) :=
  t.data.map fun line => joinSep ',' (line.map pyStr)

/-- Model of `_load_to_tracker`: each line of the file is split on commas and
every field is parsed with `float`. -/
def loadTuples (lines : List (List Char)) : List (List (Option PyNum)) :=
  lines.map fun l => (splitSep ',' l).map parseFloat

/-- The scenario tracker: independent name `step`, dependent names
`loss` and `accuracy` (a freshly constructed tracker has empty data). -/
def stepTracker : TrackerState :=
  { ind_var_name := "step"
    dep_var_names := [PyObj.str "loss", PyObj.str "accuracy"]
    data := []
    autosave := false }

/-- A minimal valid tracker with one string dependent name. -/
def yTracker : TrackerState :=
  { ind_var_name := "x"
    dep_var_names := [PyObj.str "y"]
    data := []
    autosave := false }

/-- The scenario tracker after `update(0, 1.0, 0.1)` and `update(1, 0.5, 0.4)`. -/
def stepTracker2 : TrackerState :=
  (Tracker.update
    (Tracker.update stepTracker (PyNum.pint 0) [PyNum.pfloat 1 0, PyNum.pfloat 1 1]).1
    (PyNum.pint 1) [PyNum.pfloat 5 1, PyNum.pfloat 4 1]).1

/-- Local state of a `Toggle`: its id into the shared counter table and the
local tally of consumed presses (`self.toggle_count`). -/
structure ToggleState where
  id : Nat
  toggle_count : Nat
deriving DecidableEq, Repr

/-- Read the shared counter table at an index (`self.counts[self.id]`). -/
def getCount (counts : List Int) (i : Nat) : Int := counts.getD i 0

/-- Model of `Toggle.toggled`: if the shared counter at this toggle's id is
positive, increment the local tally, decrement the counter and return
`True`; otherwise return `False`. -/
def Toggle.toggled (tg : ToggleState) (counts : List Int) :
    ToggleState × List Int × Bool :=
  if 0 < getCount counts tg.id then
    ({ tg with toggle_count := tg.toggle_count + 1 },
     counts.set tg.id (getCount counts tg.id - 1), true)
  else (tg, counts, false)

/-- Events acting on the shared counter table: a physical button press (the
`on_toggle` handler of `_toggle_window.add_button` does `_counts[index] += 1`)
or a `toggled()` poll by the toggle owning that id. -/
inductive ToggleEvent where
  | press (idx : Nat)
  | poll (idx : Nat)
deriving DecidableEq, Repr

/-- One step of the shared counter table under a press or poll event. -/
def toggleStep (counts : List Int) : ToggleEvent → List Int
  | .press i => counts.set i (getCount counts i + 1)
  | .poll i => (Toggle.toggled { id := i, toggle_count := 0 } counts).2.1

/-- Iterate `toggled()` a number of times with no interleaving presses,
collecting the returned booleans in call order. -/
def toggledRuns : Nat → ToggleState → List Int → ToggleState × List Int × List Bool
  | 0, tg, counts => (tg, counts, [])
  | k + 1, tg, counts =>
    let r := Toggle.toggled tg counts
    let rest := toggledRuns k r.1 r.2.1
    (rest.1, rest.2.1, r.2.2 :: rest.2.2)

/-- A toggle group: the toggles sharing one window process, in construction
order, together with the shared counter table. -/
structure ToggleGroup where
  toggles : List ToggleState
  counts : List Int
deriving DecidableEq, Repr

/-- Model of constructing the main toggle (`Toggle(None, ...)`): id 0 and a
fresh one-entry counter table. -/
def ToggleGroup.start : ToggleGroup :=
  { toggles := [{ id := 0, toggle_count := 0 }], counts := [0] }

/-- Model of constructing a non-main toggle: its id is the current length of
the shared counter table, and one zero entry is appended. -/
def ToggleGroup.addToggle (g : ToggleGroup) : ToggleGroup :=
  { toggles := g.toggles ++ [{ id := g.counts.length, toggle_count := 0 }]
    counts := g.counts ++ [0] }

/-- Monitor state relevant to the live-view toggle check: whether a live-view
session is open, and the live-view toggle's local state. -/
structure MonitorLV where
  lvOpen : Bool
  lvToggle : ToggleState
deriving DecidableEq, Repr

/-- Monitor at creation: no session open, live-view toggle with tally 0. -/
def MonitorLV.start : MonitorLV :=
  { lvOpen := false, lvToggle := { id := 0, toggle_count := 0 } }

/-- Parity of the cumulative consumed-press tally. -/
def oddTally (tg : ToggleState) : Bool := decide (tg.toggle_count % 2 = 1)

/-- Model of the live-view part of `_refresh_monitor_toggles`: one `toggled()`
call; when it returns `True`, open the live view if the updated tally is odd,
otherwise close it.  `open_live_view` / `close_live_view` are modelled by
setting the session flag. -/
def refreshLiveViewToggle (m : MonitorLV) (counts : List Int) :
    MonitorLV × List Int :=
  let r := Toggle.toggled m.lvToggle counts
  if r.2.2 then
    if r.1.toggle_count % 2 = 1 then ({ lvOpen := true, lvToggle := r.1 }, r.2.1)
    else ({ lvOpen := false, lvToggle := r.1 }, r.2.1)
  else ({ m with lvToggle := r.1 }, r.2.1)

/-- What one drained message makes the live-view loop do. -/
inductive LVAction where
  | stopped
  | ignored
  | rebuilt
  | updated
deriving DecidableEq, Repr

/-- State of the live-view rendering process: the snapshot trackers
(`id_to_tracker`, id with its local data copy) and the ids of the trackers
already shown in the chart (`trackers`, in append order — each has a
recorded subplot in `id_to_axes`). -/
structure LVState where
  dataOf : List (Nat × List (List PyNum))
  active : List Nat
deriving DecidableEq, Repr

/-- The tracker ids known to this process's snapshot. -/
def LVState.knownIds (s : LVState) : List Nat := s.dataOf.map Prod.fst

/-- Append a tuple to the local data copy of the tracker with a given id. -/
def assocAppend (l : List (Nat × List (List PyNum))) (i : Nat) (d : List PyNum) :
    List (Nat × List (List PyNum)) :=
  l.map fun p => if p.1 = i then (p.1, p.2 ++ [d]) else p

/-- Model of the per-message handling of `_live_view_process`: `None` is the
stop signal; a message whose id is unknown to the snapshot is ignored;
otherwise the tuple is appended, and the first message for an id triggers a
full chart rebuild (adding the id to the active list) while later messages
only update the existing subplot. -/
def processMsg (s : LVState) (msg : Option (Nat × List PyNum)) : LVState × LVAction :=
  match msg with
  | none => (s, LVAction.stopped)
  | some (i, d) =>
    if i ∈ s.knownIds then
      let s1 : LVState := { s with dataOf := assocAppend s.dataOf i d }
      if i ∈ s.active then (s1, LVAction.updated)
      else ({ s1 with active := s1.active ++ [i] }, LVAction.rebuilt)
    else (s, LVAction.ignored)

/-- Process a queue of messages in order, collecting the action taken for
each; a stop signal ends the loop. -/
def processTrace (s : LVState) : List (Option (Nat × List PyNum)) → LVState × List LVAction
  | [] => (s, [])
  | none :: _ => (s, [LVAction.stopped])
  | some m :: rest =>
    let r := processMsg s (some m)
    let t := processTrace r.1 rest
    (t.1, r.2 :: t.2)

/-- Axis limits of one subplot. -/
structure Limits where
  xmin : ℚ
  xmax : ℚ
  ymin : ℚ
  ymax : ℚ
deriving DecidableEq, Repr

/-- Concrete well-formed limits used as a witness input. -/
def limSample : Limits := { xmin := 0, xmax := 1, ymin := 0, ymax := 1 }

/-- Concrete sample sequence used as a witness input. -/
def ptSample : List (ℚ × List ℚ) := [(2, [3])]

/-- The y-limit update of `_update_live_view_axes` for one dependent value:
`if v < y_min: y_min = v elif v > y_max: y_max = v`. -/
def updY (p : ℚ × ℚ) (v : ℚ) : ℚ × ℚ :=
  if v < p.1 then (v, p.2) else if p.2 < v then (p.1, v) else p

/-- Model of `_update_live_view_axes` on the axis limits: the new independent
value extends the x-range (`if new < x_min ... elif new > x_max ...`), and
each new dependent value extends the y-range the same way. -/
def updateAxes (lim : Limits) (s : ℚ × List ℚ) : Limits :=
  let xm := if s.1 < lim.xmin then s.1 else lim.xmin
  let xM := if s.1 < lim.xmin then lim.xmax else if lim.xmax < s.1 then s.1 else lim.xmax
  let yp := s.2.foldl updY (lim.ymin, lim.ymax)
  { xmin := xm, xmax := xM, ymin := yp.1, ymax := yp.2 }

/-! Helper lemmas on digits, decimal strings and splitting. -/

theorem natDigitsRevFuel_lt_ten (fuel : Nat) :
    ∀ n, ∀ d ∈ natDigitsRevFuel fuel n, d < 10 := by
  induction fuel with
  | zero =>
    intro n d hd
    simp only [natDigitsRevFuel, List.mem_singleton] at hd
    omega
  | succ fuel ih =>
    intro n d hd
    rw [natDigitsRevFuel] at hd
    by_cases h : n < 10
    · rw [if_pos h] at hd
      simp only [List.mem_singleton] at hd
      omega
    · rw [if_neg h] at hd
      rcases List.mem_cons.mp hd with h1 | h2
      · omega
      · exact ih (n / 10) d h2

theorem natDigitsRevFuel_ne_nil (fuel n : Nat) : natDigitsRevFuel fuel n ≠ [] := by
  cases fuel with
  | zero => simp [natDigitsRevFuel]
  | succ fuel =>
    rw [natDigitsRevFuel]
    split <;> simp

theorem foldl_digit_shift (l : List Nat) (a : Nat) :
    l.foldl (fun x d => 10 * x + d) a = a * 10 ^ l.length + parseNatList l := by
  induction l generalizing a with
  | nil => simp [parseNatList]
  | cons d t ih =>
    have h2 : parseNatList (d :: t) = d * 10 ^ t.length + parseNatList t := by
      show List.foldl _ (10 * 0 + d) t = _
      rw [show 10 * 0 + d = d by omega]
      exact ih d
    simp only [List.foldl_cons, List.length_cons, h2]
    rw [ih (10 * a + d)]
    ring

theorem parseNatList_fuel (fuel : Nat) :
    ∀ n, n ≤ fuel → parseNatList ((natDigitsRevFuel fuel n).reverse) = n := by
  induction fuel with
  | zero =>
    intro n hn
    have : n = 0 := by omega
    subst this
    rfl
  | succ fuel ih =>
    intro n hn
    by_cases h : n < 10
    · rw [natDigitsRevFuel, if_pos h]
      simp [parseNatList]
    · have hd : n / 10 < n := Nat.div_lt_self (by omega) (by omega)
      have hrec := ih (n / 10) (by omega)
      rw [natDigitsRevFuel, if_neg h, List.reverse_cons]
      unfold parseNatList at hrec ⊢
      rw [List.foldl_append, hrec]
      show 10 * (n / 10) + n % 10 = n
      omega

theorem parseNatList_natDigitsRev (n : Nat) :
    parseNatList ((natDigitsRev n).reverse) = n :=
  parseNatList_fuel n n (Nat.le_refl n)

theorem charDigit_digitChar {d : Nat} (h : d < 10) : charDigit (digitChar d) = d := by
  interval_cases d <;> rfl

theorem digitChar_isDigit {d : Nat} (h : d < 10) : (digitChar d).isDigit = true := by
  interval_cases d <;> rfl

theorem isDigit_ne_dot {c : Char} (h : c.isDigit = true) : c ≠ '.' := by
  rintro rfl
  exact absurd h (by decide)

theorem isDigit_ne_comma {c : Char} (h : c.isDigit = true) : c ≠ ',' := by
  rintro rfl
  exact absurd h (by decide)

theorem isDigit_ne_minus {c : Char} (h : c.isDigit = true) : c ≠ '-' := by
  rintro rfl
  exact absurd h (by decide)

theorem natStr_ne_nil (n : Nat) : natStr n ≠ [] := by
  unfold natStr natDigitsRev
  intro h
  rcases List.map_eq_nil_iff.mp h with h'
  exact natDigitsRevFuel_ne_nil n n (List.reverse_eq_nil_iff.mp h')

theorem mem_natStr_isDigit {c : Char} {n : Nat} (h : c ∈ natStr n) : c.isDigit = true := by
  unfold natStr at h
  rcases List.mem_map.mp h with ⟨d, hd, rfl⟩
  exact digitChar_isDigit (natDigitsRevFuel_lt_ten n n d (List.mem_reverse.mp hd))

theorem parseDigits_map_digitChar (l : List Nat) (h : ∀ d ∈ l, d < 10) :
    parseDigits (l.map digitChar) = parseNatList l := by
  unfold parseDigits parseNatList
  rw [List.foldl_map]
  apply List.foldl_ext
  intro a b hb
  rw [charDigit_digitChar (h b hb)]

theorem parseDigits_natStr (n : Nat) : parseDigits (natStr n) = n := by
  unfold natStr natDigitsRev
  rw [parseDigits_map_digitChar _
    (fun d hd => natDigitsRevFuel_lt_ten n n d (List.mem_reverse.mp hd))]
  exact parseNatList_fuel n n (Nat.le_refl n)

theorem parseDigits_replicate_zero (k : Nat) (l : List Char) :
    parseDigits (List.replicate k '0' ++ l) = parseDigits l := by
  induction k with
  | zero => simp
  | succ k ih =>
    rw [List.replicate_succ, List.cons_append]
    show List.foldl _ (10 * 0 + charDigit '0') _ = _
    rw [show 10 * 0 + charDigit '0' = 0 from rfl]
    exact ih

theorem isEmpty_false_of_ne_nil {l : List Char} (h : l ≠ []) : l.isEmpty = false := by
  cases l with
  | nil => exact absurd rfl h
  | cons c cs => rfl

theorem allDigits_eq_true {l : List Char} (h : ∀ c ∈ l, c.isDigit = true) :
    allDigits l = true :=
  List.all_eq_true.mpr h

theorem splitSep_ne_nil (sep : Char) (l : List Char) : splitSep sep l ≠ [] := by
  cases l with
  | nil => simp [splitSep]
  | cons c cs =>
    rw [splitSep]
    split
    · simp
    · split <;> simp

theorem splitSep_not_mem {sep : Char} {l : List Char} (h : sep ∉ l) :
    splitSep sep l = [l] := by
  induction l with
  | nil => rfl
  | cons c cs ih =>
    have hc : ¬(c = sep) := fun hh => h (hh ▸ List.mem_cons_self c cs)
    have hcs : sep ∉ cs := fun hm => h (List.mem_cons_of_mem _ hm)
    rw [splitSep, if_neg hc, ih hcs]

theorem splitSep_append_cons {sep : Char} (p r : List Char) (h : sep ∉ p) :
    splitSep sep (p ++ sep :: r) = p :: splitSep sep r := by
  induction p with
  | nil =>
    simp only [List.nil_append]
    rw [splitSep, if_pos rfl]
  | cons c cs ih =>
    have hc : ¬(c = sep) := fun hh => h (hh ▸ List.mem_cons_self c cs)
    have hcs : sep ∉ cs := fun hm => h (List.mem_cons_of_mem _ hm)
    rw [List.cons_append, splitSep, if_neg hc, ih hcs]

theorem splitSep_joinSep {sep : Char} :
    ∀ (parts : List (List Char)), parts ≠ [] → (∀ p ∈ parts, sep ∉ p) →
      splitSep sep (joinSep sep parts) = parts
  | [], h, _ => absurd rfl h
  | [p], _, hp => by
    rw [joinSep]
    exact splitSep_not_mem (hp p (by simp))
  | p :: q :: rest, _, hp => by
    rw [joinSep, splitSep_append_cons p _ (hp p (by simp))]
    rw [splitSep_joinSep (q :: rest) (by simp)
      (fun x hx => hp x (List.mem_cons_of_mem _ hx))]

theorem splitSign_minus (l : List Char) : splitSign ('-' :: l) = (true, l) := by
  simp [splitSign]

theorem splitSign_no_minus (l : List Char) (h : '-' ∉ l) : splitSign l = (false, l) := by
  unfold splitSign
  rw [if_neg]
  intro hh
  exact h (List.mem_of_mem_head? (Option.mem_def.mpr hh))

theorem mem_padLeft {c : Char} {l : List Char} {k : Nat} (h : c ∈ padLeft l k) :
    c = '0' ∨ c ∈ l := by
  unfold padLeft at h
  rcases List.mem_append.mp h with h1 | h2
  · exact Or.inl (List.eq_of_mem_replicate h1)
  · exact Or.inr h2

theorem mem_padLeft_natStr_isDigit {c : Char} {n k : Nat}
    (h : c ∈ padLeft (natStr n) k) : c.isDigit = true := by
  rcases mem_padLeft h with h1 | h2
  · subst h1
    rfl
  · exact mem_natStr_isDigit h2

theorem padLeft_length (l : List Char) (k : Nat) : k ≤ (padLeft l k).length := by
  unfold padLeft
  simp only [List.length_append, List.length_replicate]
  omega

theorem parseDigits_padLeft (n k : Nat) : parseDigits (padLeft (natStr n) k) = n := by
  unfold padLeft
  rw [parseDigits_replicate_zero, parseDigits_natStr]

theorem parseDigits_append_digit (l : List Char) (c : Char) :
    parseDigits (l ++ [c]) = 10 * parseDigits l + charDigit c := by
  unfold parseDigits
  rw [List.foldl_append]
  rfl

theorem mem_floatCore {c : Char} {m : Int} {e : Nat} (h : c ∈ floatCore m e) :
    c = '.' ∨ c.isDigit = true := by
  unfold floatCore at h
  split at h
  · rcases List.mem_append.mp h with h1 | h2
    · exact Or.inr (mem_natStr_isDigit h1)
    · simp only [List.mem_cons, List.mem_singleton] at h2
      rcases h2 with h3 | h3 | h3
      · exact Or.inl h3
      · subst h3
        exact Or.inr rfl
      · exact absurd h3 (by simp)
  · rcases List.mem_append.mp h with h1 | h2
    · exact Or.inr (mem_padLeft_natStr_isDigit (List.take_subset _ _ h1))
    · rcases List.mem_cons.mp h2 with h3 | h4
      · exact Or.inl h3
      · exact Or.inr (mem_padLeft_natStr_isDigit (List.drop_subset _ _ h4))

theorem minus_not_mem_floatCore (m : Int) (e : Nat) : '-' ∉ floatCore m e := by
  intro h
  rcases mem_floatCore h with h1 | h2
  · exact absurd h1 (by decide)
  · exact absurd h2 (by decide)

theorem minus_not_mem_natStr (n : Nat) : '-' ∉ natStr n := by
  intro h
  exact absurd (mem_natStr_isDigit h) (by decide)

theorem comma_not_mem_intStr (n : Int) : ',' ∉ intStr n := by
  unfold intStr
  split
  · intro h
    rcases List.mem_cons.mp h with h1 | h2
    · exact absurd h1 (by decide)
    · exact absurd (mem_natStr_isDigit h2) (by decide)
  · intro h
    exact absurd (mem_natStr_isDigit h) (by decide)

theorem comma_not_mem_floatStr (m : Int) (e : Nat) : ',' ∉ floatStr m e := by
  unfold floatStr
  split
  · intro h
    rcases List.mem_cons.mp h with h1 | h2
    · exact absurd h1 (by decide)
    · rcases mem_floatCore h2 with h3 | h4
      · exact absurd h3 (by decide)
      · exact absurd h4 (by decide)
  · intro h
    rcases mem_floatCore h with h3 | h4
    · exact absurd h3 (by decide)
    · exact absurd h4 (by decide)

theorem comma_not_mem_pyStr (v : PyNum) : ',' ∉ pyStr v := by
  cases v with
  | pint n => exact comma_not_mem_intStr n
  | pfloat m e => exact comma_not_mem_floatStr m e

theorem floatCore_ne_nil (m : Int) (e : Nat) : floatCore m e ≠ [] := by
  unfold floatCore
  split
  · simp [natStr_ne_nil]
  · simp

theorem intStr_ne_nil (n : Int) : intStr n ≠ [] := by
  unfold intStr
  split
  · simp
  · exact natStr_ne_nil _

theorem floatStr_ne_nil (m : Int) (e : Nat) : floatStr m e ≠ [] := by
  unfold floatStr
  split
  · simp
  · exact floatCore_ne_nil _ _

theorem pyStr_ne_nil (v : PyNum) : pyStr v ≠ [] := by
  cases v with
  | pint n => exact intStr_ne_nil n
  | pfloat m e => exact floatStr_ne_nil m e

theorem parseFloat_of_splitSign_digits {L : List Char} {neg : Bool} {body : List Char}
    (hs : splitSign L = (neg, body)) (hne : body ≠ [])
    (hd : ∀ c ∈ body, c.isDigit = true) :
    parseFloat L = some (PyNum.pfloat (intOfSign neg (parseDigits body)) 0) := by
  have hnodot : '.' ∉ body := fun hm => absurd (hd _ hm) (by decide)
  have hcond : (!body.isEmpty && allDigits body) = true := by
    rw [isEmpty_false_of_ne_nil hne, allDigits_eq_true hd]
    rfl
  simp only [parseFloat, hs]
  rw [splitSep_not_mem hnodot]
  simp only [hcond, if_true]

theorem parseFloat_of_splitSign_dotted {L : List Char} {neg : Bool} {w f : List Char}
    (hs : splitSign L = (neg, w ++ '.' :: f))
    (hw : ∀ c ∈ w, c.isDigit = true) (hf : ∀ c ∈ f, c.isDigit = true)
    (hne : w ++ f ≠ []) :
    parseFloat L = some (PyNum.pfloat (intOfSign neg (parseDigits (w ++ f))) f.length) := by
  have hwnodot : '.' ∉ w := fun hm => absurd (hw _ hm) (by decide)
  have hfnodot : '.' ∉ f := fun hm => absurd (hf _ hm) (by decide)
  have hcond : (!(w ++ f).isEmpty && allDigits w && allDigits f) = true := by
    rw [isEmpty_false_of_ne_nil hne, allDigits_eq_true hw, allDigits_eq_true hf]
    rfl
  simp only [parseFloat, hs]
  rw [splitSep_append_cons w f hwnodot, splitSep_not_mem hfnodot]
  simp only [hcond, if_true]

theorem parseFloat_intStr (n : Int) :
    parseFloat (intStr n) = some (PyNum.pfloat n 0) := by
  by_cases h : n < 0
  · have hi : intStr n = '-' :: natStr n.natAbs := by rw [intStr, if_pos h]
    rw [hi, parseFloat_of_splitSign_digits (splitSign_minus _) (natStr_ne_nil _)
      (fun c hc => mem_natStr_isDigit hc), parseDigits_natStr]
    have : intOfSign true n.natAbs = n := by
      unfold intOfSign
      rw [if_pos rfl]
      omega
    rw [this]
  · have hi : intStr n = natStr n.natAbs := by rw [intStr, if_neg h]
    rw [hi, parseFloat_of_splitSign_digits
      (splitSign_no_minus _ (minus_not_mem_natStr _)) (natStr_ne_nil _)
      (fun c hc => mem_natStr_isDigit hc), parseDigits_natStr]
    have : intOfSign false n.natAbs = n := by
      unfold intOfSign
      rw [if_neg (by decide)]
      omega
    rw [this]

theorem intOfSign_natAbs_neg {m : Int} (h : m < 0) (k : Nat) :
    intOfSign true (k * m.natAbs) = k * m := by
  have habs : (m.natAbs : Int) = -m := by omega
  unfold intOfSign
  rw [if_pos rfl, Nat.cast_mul, habs]
  ring

theorem intOfSign_natAbs_nonneg {m : Int} (h : ¬ m < 0) (k : Nat) :
    intOfSign false (k * m.natAbs) = k * m := by
  have habs : (m.natAbs : Int) = m := by omega
  unfold intOfSign
  rw [if_neg (by decide), Nat.cast_mul, habs]

theorem parseFloat_floatStr_zero (m : Int) :
    parseFloat (floatStr m 0) = some (PyNum.pfloat (10 * m) 1) := by
  have hcore : floatCore m 0 = natStr m.natAbs ++ '.' :: ['0'] := by
    rw [floatCore, if_pos rfl]
  have hw : ∀ c ∈ natStr m.natAbs, c.isDigit = true := fun c hc => mem_natStr_isDigit hc
  have hf : ∀ c ∈ ['0'], c.isDigit = true := by decide
  have hne : natStr m.natAbs ++ ['0'] ≠ [] := by
    simp [natStr_ne_nil]
  have hp : parseDigits (natStr m.natAbs ++ ['0']) = 10 * m.natAbs := by
    rw [parseDigits_append_digit, parseDigits_natStr]
    rfl
  by_cases h : m < 0
  · have hi : floatStr m 0 = '-' :: floatCore m 0 := by rw [floatStr, if_pos h]
    rw [hi, hcore, parseFloat_of_splitSign_dotted (splitSign_minus _) hw hf hne, hp,
      intOfSign_natAbs_neg h 10]
    rfl
  · have hi : floatStr m 0 = floatCore m 0 := by rw [floatStr, if_neg h]
    rw [hi, hcore, parseFloat_of_splitSign_dotted
      (by rw [← hcore]; exact splitSign_no_minus _ (minus_not_mem_floatCore m 0))
      hw hf hne, hp, intOfSign_natAbs_nonneg h 10]
    rfl

theorem parseFloat_floatStr_pos (m : Int) (e : Nat) (he : e ≠ 0) :
    parseFloat (floatStr m e) = some (PyNum.pfloat m e) := by
  have hslen : e + 1 ≤ (padLeft (natStr m.natAbs) (e + 1)).length :=
    padLeft_length _ _
  have hcore : floatCore m e =
      (padLeft (natStr m.natAbs) (e + 1)).take
          ((padLeft (natStr m.natAbs) (e + 1)).length - e)
        ++ '.' :: (padLeft (natStr m.natAbs) (e + 1)).drop
          ((padLeft (natStr m.natAbs) (e + 1)).length - e) := by
    rw [floatCore, if_neg he]
  have hw : ∀ c ∈ (padLeft (natStr m.natAbs) (e + 1)).take
      ((padLeft (natStr m.natAbs) (e + 1)).length - e), c.isDigit = true :=
    fun c hc => mem_padLeft_natStr_isDigit (List.take_subset _ _ hc)
  have hf : ∀ c ∈ (padLeft (natStr m.natAbs) (e + 1)).drop
      ((padLeft (natStr m.natAbs) (e + 1)).length - e), c.isDigit = true :=
    fun c hc => mem_padLeft_natStr_isDigit (List.drop_subset _ _ hc)
  have hne : (padLeft (natStr m.natAbs) (e + 1)).take
      ((padLeft (natStr m.natAbs) (e + 1)).length - e)
      ++ (padLeft (natStr m.natAbs) (e + 1)).drop
        ((padLeft (natStr m.natAbs) (e + 1)).length - e) ≠ [] := by
    rw [List.take_append_drop]
    intro hnil
    have := congrArg List.length hnil
    simp only [List.length_nil] at this
    omega
  have hp : parseDigits ((padLeft (natStr m.natAbs) (e + 1)).take
      ((padLeft (natStr m.natAbs) (e + 1)).length - e)
      ++ (padLeft (natStr m.natAbs) (e + 1)).drop
        ((padLeft (natStr m.natAbs) (e + 1)).length - e)) = m.natAbs := by
    rw [List.take_append_drop, parseDigits_padLeft]
  have hdl : ((padLeft (natStr m.natAbs) (e + 1)).drop
      ((padLeft (natStr m.natAbs) (e + 1)).length - e)).length = e := by
    rw [List.length_drop]
    omega
  by_cases h : m < 0
  · have hi : floatStr m e = '-' :: floatCore m e := by rw [floatStr, if_pos h]
    rw [hi, hcore, parseFloat_of_splitSign_dotted (splitSign_minus _) hw hf hne, hp, hdl]
    have : intOfSign true m.natAbs = m := by
      unfold intOfSign
      rw [if_pos rfl]
      omega
    rw [this]
  · have hi : floatStr m e = floatCore m e := by rw [floatStr, if_neg h]
    rw [hi, hcore, parseFloat_of_splitSign_dotted
      (by rw [← hcore]; exact splitSign_no_minus _ (minus_not_mem_floatCore m e))
      hw hf hne, hp, hdl]
    have : intOfSign false m.natAbs = m := by
      unfold intOfSign
      rw [if_neg (by decide)]
      omega
    rw [this]

theorem parseFloat_pyStr (v : PyNum) :
    ∃ w, parseFloat (pyStr v) = some w ∧ w.isFloat = true ∧ w.toRat = v.toRat := by
  cases v with
  | pint n =>
    refine ⟨.pfloat n 0, parseFloat_intStr n, rfl, ?_⟩
    simp [PyNum.toRat]
  | pfloat m e =>
    by_cases he : e = 0
    · subst he
      refine ⟨.pfloat (10 * m) 1, parseFloat_floatStr_zero m, rfl, ?_⟩
      simp only [PyNum.toRat, pow_one, pow_zero, div_one]
      push_cast
      rw [mul_comm, mul_div_assoc]
      norm_num
    · exact ⟨.pfloat m e, parseFloat_floatStr_pos m e he, rfl, rfl⟩

/-! Helper lemmas on the shared counter table. -/

theorem getCount_set_self : ∀ (counts : List Int) (i : Nat), i < counts.length →
    ∀ a : Int, getCount (counts.set i a) i = a
  | [], i, h, a => absurd h (by simp)
  | c :: cs, 0, _, a => rfl
  | c :: cs, i + 1, h, a =>
    getCount_set_self cs i (by simpa using h) a

theorem getCount_nonneg : ∀ (counts : List Int), (∀ c ∈ counts, 0 ≤ c) →
    ∀ i, 0 ≤ getCount counts i
  | [], _, i => by simp [getCount]
  | c :: cs, h, 0 => h c (List.mem_cons_self c cs)
  | c :: cs, h, i + 1 =>
    getCount_nonneg cs (fun x hx => h x (List.mem_cons_of_mem _ hx)) i

/-! Helper lemmas on the live-view message loop. -/

theorem processMsg_active_mem {s : LVState} {i : Nat} (d : List PyNum)
    (h : i ∈ s.active) :
    (processMsg s (some (i, d))).1.active = s.active ∧
    (processMsg s (some (i, d))).2 ≠ LVAction.rebuilt := by
  simp only [processMsg]
  by_cases hk : i ∈ s.knownIds
  · simp [hk, h]
  · simp [hk]

/-! Helper lemmas on the axis-limit update. -/

theorem updY_fst_le (p : ℚ × ℚ) (v : ℚ) : (updY p v).1 ≤ p.1 := by
  unfold updY
  split
  · exact le_of_lt (by assumption)
  · split
    · exact le_refl _
    · exact le_refl _

theorem updY_snd_le (p : ℚ × ℚ) (v : ℚ) : p.2 ≤ (updY p v).2 := by
  unfold updY
  split
  · exact le_refl _
  · split
    · exact le_of_lt (by assumption)
    · exact le_refl _

theorem updY_wf {p : ℚ × ℚ} (h : p.1 ≤ p.2) (v : ℚ) : (updY p v).1 ≤ (updY p v).2 := by
  unfold updY
  split
  · exact le_trans (le_of_lt (by assumption)) h
  · split
    · exact le_trans h (le_of_lt (by assumption))
    · exact h

theorem updY_covers {p : ℚ × ℚ} (h : p.1 ≤ p.2) (v : ℚ) :
    (updY p v).1 ≤ v ∧ v ≤ (updY p v).2 := by
  unfold updY
  split
  · exact ⟨le_refl _, le_trans (le_of_lt (by assumption)) h⟩
  · split
    · exact ⟨le_trans h (le_of_lt (by assumption)), le_refl _⟩
    · constructor
      · exact le_of_not_lt (by assumption)
      · exact le_of_not_lt (by assumption)

theorem foldl_updY_le (ys : List ℚ) (p : ℚ × ℚ) :
    (ys.foldl updY p).1 ≤ p.1 ∧ p.2 ≤ (ys.foldl updY p).2 := by
  induction ys generalizing p with
  | nil => exact ⟨le_refl _, le_refl _⟩
  | cons v t ih =>
    rcases ih (updY p v) with ⟨h1, h2⟩
    exact ⟨le_trans h1 (updY_fst_le p v), le_trans (updY_snd_le p v) h2⟩

theorem foldl_updY_wf (ys : List ℚ) {p : ℚ × ℚ} (h : p.1 ≤ p.2) :
    (ys.foldl updY p).1 ≤ (ys.foldl updY p).2 := by
  induction ys generalizing p with
  | nil => exact h
  | cons v t ih => exact ih (updY_wf h v)

theorem foldl_updY_covers (ys : List ℚ) {p : ℚ × ℚ} (h : p.1 ≤ p.2) :
    ∀ v ∈ ys, (ys.foldl updY p).1 ≤ v ∧ v ≤ (ys.foldl updY p).2 := by
  induction ys generalizing p with
  | nil => intro v hv; exact absurd hv (by simp)
  | cons u t ih =>
    intro v hv
    rcases List.mem_cons.mp hv with h1 | h2
    · subst h1
      rcases updY_covers h v with ⟨hc1, hc2⟩
      rcases foldl_updY_le t (updY p v) with ⟨hl1, hl2⟩
      exact ⟨le_trans hl1 hc1, le_trans hc2 hl2⟩
    · exact ih (updY_wf h u) v h2

theorem updateAxes_expand (lim : Limits) (s : ℚ × List ℚ)
    (hx : lim.xmin ≤ lim.xmax) (hy : lim.ymin ≤ lim.ymax) :
    ((updateAxes lim s).xmin ≤ lim.xmin ∧ lim.xmax ≤ (updateAxes lim s).xmax
      ∧ (updateAxes lim s).ymin ≤ lim.ymin ∧ lim.ymax ≤ (updateAxes lim s).ymax)
    ∧ ((updateAxes lim s).xmin ≤ (updateAxes lim s).xmax
      ∧ (updateAxes lim s).ymin ≤ (updateAxes lim s).ymax)
    ∧ ((updateAxes lim s).xmin ≤ s.1 ∧ s.1 ≤ (updateAxes lim s).xmax)
    ∧ (∀ v ∈ s.2, (updateAxes lim s).ymin ≤ v ∧ v ≤ (updateAxes lim s).ymax) := by
  have hyl := foldl_updY_le s.2 (lim.ymin, lim.ymax)
  have hyw := foldl_updY_wf s.2 (p := (lim.ymin, lim.ymax)) hy
  have hyc := foldl_updY_covers s.2 (p := (lim.ymin, lim.ymax)) hy
  unfold updateAxes
  by_cases h1 : s.1 < lim.xmin
  · simp only [if_pos h1]
    refine ⟨⟨le_of_lt h1, le_refl _, hyl.1, hyl.2⟩,
      ⟨le_trans (le_of_lt h1) hx, hyw⟩, ⟨le_refl _, le_trans (le_of_lt h1) hx⟩, hyc⟩
  · simp only [if_neg h1]
    by_cases h2 : lim.xmax < s.1
    · simp only [if_pos h2]
      refine ⟨⟨le_refl _, le_of_lt h2, hyl.1, hyl.2⟩,
        ⟨le_trans hx (le_of_lt h2), hyw⟩, ⟨le_of_not_lt h1, le_refl _⟩, hyc⟩
    · simp only [if_neg h2]
      exact ⟨⟨le_refl _, le_refl _, hyl.1, hyl.2⟩,
        ⟨hx, hyw⟩, ⟨le_of_not_lt h1, le_of_not_lt h2⟩, hyc⟩

theorem toggled_pos {tg : ToggleState} {counts : List Int}
    (h : 0 < getCount counts tg.id) :
    Toggle.toggled tg counts =
      ({ id := tg.id, toggle_count := tg.toggle_count + 1 },
       counts.set tg.id (getCount counts tg.id - 1), true) := by
  unfold Toggle.toggled
  rw [if_pos h]

theorem toggled_zero {tg : ToggleState} {counts : List Int}
    (h : ¬ 0 < getCount counts tg.id) :
    Toggle.toggled tg counts = (tg, counts, false) := by
  unfold Toggle.toggled
  rw [if_neg h]

theorem toggledRuns_succ (k : Nat) (tg : ToggleState) (counts : List Int) :
    toggledRuns (k + 1) tg counts =
      ((toggledRuns k (Toggle.toggled tg counts).1 (Toggle.toggled tg counts).2.1).1,
       (toggledRuns k (Toggle.toggled tg counts).1 (Toggle.toggled tg counts).2.1).2.1,
       (Toggle.toggled tg counts).2.2 ::
         (toggledRuns k (Toggle.toggled tg counts).1 (Toggle.toggled tg counts).2.1).2.2) :=
  rfl

theorem toggledRuns_drain : ∀ (N : Nat) (tg : ToggleState) (counts : List Int),
    tg.id < counts.length → getCount counts tg.id = (N : Int) →
    (toggledRuns (N + 1) tg counts).2.2 = List.replicate N true ++ [false]
    ∧ (toggledRuns (N + 1) tg counts).1.toggle_count = tg.toggle_count + N
    ∧ getCount (toggledRuns (N + 1) tg counts).2.1 tg.id = 0 := by
  intro N
  induction N with
  | zero =>
    intro tg counts hid hc
    have hz : ¬ 0 < getCount counts tg.id := by
      rw [hc]
      simp
    simp only [toggledRuns, toggled_zero hz]
    exact ⟨rfl, rfl, by simpa using hc⟩
  | succ N ih =>
    intro tg counts hid hc
    have hpos : 0 < getCount counts tg.id := by
      rw [hc]
      exact_mod_cast Nat.succ_pos N
    have hval : getCount counts tg.id - 1 = ((N : Nat) : Int) := by
      rw [hc]
      push_cast
      ring
    have hid' : tg.id < (counts.set tg.id (getCount counts tg.id - 1)).length := by
      simpa using hid
    have hc' : getCount (counts.set tg.id (getCount counts tg.id - 1)) tg.id
        = ((N : Nat) : Int) := by
      rw [getCount_set_self counts tg.id hid, hval]
    have hrec := ih { id := tg.id, toggle_count := tg.toggle_count + 1 }
      (counts.set tg.id (getCount counts tg.id - 1)) hid' hc'
    rw [toggledRuns_succ]
    simp only [toggled_pos hpos]
    refine ⟨?_, ?_, ?_⟩
    · rw [hrec.1, List.replicate_succ]
      rfl
    · rw [hrec.2.1]
      show tg.toggle_count + 1 + N = tg.toggle_count + (N + 1)
      omega
    · exact hrec.2.2

theorem trace_no_rebuild : ∀ (msgs : List (Option (Nat × List PyNum))) (s : LVState),
    (∀ p ∈ msgs, ∀ j : Nat, ∀ e : List PyNum, p = some (j, e) → j ∈ s.active) →
    LVAction.rebuilt ∉ (processTrace s msgs).2 := by
  intro msgs
  induction msgs with
  | nil =>
    intro s _
    simp [processTrace]
  | cons p rest ih =>
    intro s hcond
    cases p with
    | none => simp [processTrace]
    | some md =>
      obtain ⟨j, e⟩ := md
      have hj : j ∈ s.active := hcond (some (j, e)) (List.mem_cons_self _ _) j e rfl
      have hstab := processMsg_active_mem (s := s) e hj
      simp only [processTrace]
      intro hmem
      rcases List.mem_cons.mp hmem with h1 | h2
      · exact hstab.2 h1.symm
      · refine ih (processMsg s (some (j, e))).1 ?_ h2
        intro p hp j' e' hpe
        rw [hstab.1]
        exact hcond p (List.mem_cons_of_mem _ hp) j' e' hpe

/-! Claim theorems. -/

/-- C1: for every tracker and every `update` call whose count of dependent
values differs from the tracker's configured dependent-name count, the call
fails with the arity error (raised before any mutation, so nothing is
truncated or padded) and the tracker's in-memory data sequence — indeed the
whole tracker state — is left unmodified. -/
theorem c1_update_arity_error (t : TrackerState) (ind : PyNum) (deps : List PyNum)
    (h : deps.length ≠ t.dep_var_names.length) :
    Tracker.update t ind deps =
      (t, some (TrackerError.arityError (1 + deps.length) (t.dep_var_names.length + 1)))
    ∧ (Tracker.update t ind deps).1.data = t.data := by
  unfold Tracker.update
  rw [if_pos h]
  exact ⟨rfl, rfl⟩

/-- C1 witness: a concrete mismatched call (no dependent values against two
dependent names) fails with the arity error and leaves the data unchanged. -/
theorem c1_update_arity_error_witness :
    (([] : List PyNum).length ≠ stepTracker.dep_var_names.length)
    ∧ (Tracker.update stepTracker (PyNum.pint 1) [] =
        (stepTracker, some (TrackerError.arityError (1 + ([] : List PyNum).length)
          (stepTracker.dep_var_names.length + 1)))
      ∧ (Tracker.update stepTracker (PyNum.pint 1) []).1.data = stepTracker.data) :=
  ⟨by decide, c1_update_arity_error stepTracker (PyNum.pint 1) [] (by decide)⟩

/-- C2: `save` followed by a fresh load reproduces the exact ordered sequence
of tuples, the only transformation being the per-value stringify / parse step,
which is value-exact (and always yields floats); in particular the `step` /
`loss`, `accuracy` scenario with updates `(0, 1.0, 0.1)` and `(1, 0.5, 0.4)`
reloads as exactly the tuples `(0.0, 1.0, 0.1)` and `(1.0, 0.5, 0.4)` in that
order. -/
theorem c2_save_load_round_trip (tr : TrackerState) (h : ∀ line ∈ tr.data, line ≠ []) :
    loadTuples (Tracker.saveLines tr) =
      tr.data.map (fun line => line.map (fun v => parseFloat (pyStr v)))
    ∧ (∀ v : PyNum, ∃ w, parseFloat (pyStr v) = some w ∧ w.isFloat = true
        ∧ w.toRat = v.toRat)
    ∧ (loadTuples (Tracker.saveLines stepTracker2)).map
        (fun line => line.map (Option.map PyNum.toRat)) =
      [[some 0, some 1, some (1 / 10)], [some 1, some (1 / 2), some (2 / 5)]] := by
  refine ⟨?_, parseFloat_pyStr, ?_⟩
  · unfold loadTuples Tracker.saveLines
    rw [List.map_map]
    apply List.map_congr_left
    intro line hline
    simp only [Function.comp]
    rw [splitSep_joinSep (line.map pyStr)
      (by simpa using h line hline)
      (by
        intro p hp
        rcases List.mem_map.mp hp with ⟨v, _, rfl⟩
        exact comma_not_mem_pyStr v)]
    rw [List.map_map]
    rfl
  · have hstruct : loadTuples (Tracker.saveLines stepTracker2) =
        [[some (PyNum.pfloat 0 0), some (PyNum.pfloat 10 1), some (PyNum.pfloat 1 1)],
         [some (PyNum.pfloat 1 0), some (PyNum.pfloat 5 1), some (PyNum.pfloat 4 1)]] := by
      decide
    rw [hstruct]
    norm_num [PyNum.toRat]

/-- C2 witness: the round-trip theorem applied to the concrete scenario
tracker after its two updates. -/
theorem c2_save_load_round_trip_witness :
    (∀ line ∈ stepTracker2.data, line ≠ [])
    ∧ (loadTuples (Tracker.saveLines stepTracker2) =
        stepTracker2.data.map (fun line => line.map (fun v => parseFloat (pyStr v)))
      ∧ (∀ v : PyNum, ∃ w, parseFloat (pyStr v) = some w ∧ w.isFloat = true
          ∧ w.toRat = v.toRat)
      ∧ (loadTuples (Tracker.saveLines stepTracker2)).map
          (fun line => line.map (Option.map PyNum.toRat)) =
        [[some 0, some 1, some (1 / 10)], [some 1, some (1 / 2), some (2 / 5)]]) :=
  ⟨by decide, c2_save_load_round_trip stepTracker2 (by decide)⟩

/-- C7: a message whose tracker id is not in the process's snapshot is
ignored: the loop neither crashes nor changes any state for that message. -/
theorem c7_unknown_id_ignored (s : LVState) (i : Nat) (d : List PyNum)
    (h : i ∉ s.knownIds) :
    processMsg s (some (i, d)) = (s, LVAction.ignored) := by
  simp only [processMsg]
  rw [if_neg h]

/-- C7 witness: a message for id 5 against a snapshot that only knows id 0 is
ignored and the state is unchanged. -/
theorem c7_unknown_id_ignored_witness :
    (5 ∉ LVState.knownIds { dataOf := [(0, [])], active := [] })
    ∧ processMsg { dataOf := [(0, [])], active := [] } (some (5, [PyNum.pint 1])) =
        ({ dataOf := [(0, [])], active := [] }, LVAction.ignored) :=
  ⟨by decide, c7_unknown_id_ignored { dataOf := [(0, [])], active := [] } 5
    [PyNum.pint 1] (by decide)⟩

/-- C9: toggle ids are assigned by append order and always equal the toggle's
index in the shared counter table: after `n` non-main constructions the ids
are exactly `0, 1, …, n` and the counter table has length `n + 1`; each
construction appends one zero entry and hands out the pre-append table length
as the id. -/
theorem c9_toggle_ids_dense (n : Nat) :
    ((ToggleGroup.addToggle)^[n] ToggleGroup.start).toggles.map ToggleState.id
      = List.range (n + 1)
    ∧ ((ToggleGroup.addToggle)^[n] ToggleGroup.start).counts.length = n + 1
    ∧ (∀ g : ToggleGroup,
        (ToggleGroup.addToggle g).counts.length = g.counts.length + 1
        ∧ (ToggleGroup.addToggle g).toggles.map ToggleState.id
            = g.toggles.map ToggleState.id ++ [g.counts.length]) := by
  have step : ∀ g : ToggleGroup,
      (ToggleGroup.addToggle g).counts.length = g.counts.length + 1
      ∧ (ToggleGroup.addToggle g).toggles.map ToggleState.id
          = g.toggles.map ToggleState.id ++ [g.counts.length] := fun g =>
    ⟨by simp [ToggleGroup.addToggle], by simp [ToggleGroup.addToggle]⟩
  have key : ∀ k : Nat,
      ((ToggleGroup.addToggle)^[k] ToggleGroup.start).toggles.map ToggleState.id
        = List.range (k + 1)
      ∧ ((ToggleGroup.addToggle)^[k] ToggleGroup.start).counts.length = k + 1 := by
    intro k
    induction k with
    | zero => exact ⟨rfl, rfl⟩
    | succ k ih =>
      rw [Function.iterate_succ_apply']
      constructor
      · rw [(step _).2, ih.1, ih.2]
        exact (List.range_succ (k + 1)).symm
      · rw [(step _).1, ih.2]
  exact ⟨(key n).1, (key n).2, step⟩

/-- C10: constructing a tracker with zero dependent names, or with any
non-string dependent name, always fails with a `ValueError` (so no tracker
state is created); a successfully constructed tracker therefore has at least
one dependent name and all of its dependent names are strings. -/
theorem c10_tracker_init_validation (ind : String) (deps : List PyObj) (a : Bool) :
    ((deps = [] ∨ ∃ o ∈ deps, PyObj.isStr o = false) →
      exceptOk (Tracker.init ind deps a) = false)
    ∧ (∀ t : TrackerState, Tracker.init ind deps a = Except.ok t →
        t.dep_var_names ≠ [] ∧ ∀ o ∈ t.dep_var_names, PyObj.isStr o = true) := by
  constructor
  · rintro (rfl | ⟨o, ho, hno⟩)
    · rfl
    · unfold Tracker.init
      by_cases hlen : deps.length = 0
      · rw [if_pos hlen]
        rfl
      · rw [if_neg hlen]
        have hsome : (deps.find? (fun o => !(PyObj.isStr o))).isSome := by
          rw [List.find?_isSome]
          exact ⟨o, ho, by rw [hno]; rfl⟩
        rcases Option.isSome_iff_exists.mp hsome with ⟨bad, hbad⟩
        rw [hbad]
        rfl
  · intro t ht
    unfold Tracker.init at ht
    by_cases hlen : deps.length = 0
    · rw [if_pos hlen] at ht
      exact absurd ht (by simp)
    · rw [if_neg hlen] at ht
      cases hfind : deps.find? (fun o => !(PyObj.isStr o)) with
      | some bad =>
        rw [hfind] at ht
        exact absurd ht (by simp)
      | none =>
        rw [hfind] at ht
        have h1 : t.dep_var_names = deps := by
          injection ht with h2
          rw [← h2]
        constructor
        · rw [h1]
          intro hnil
          exact hlen (by rw [hnil]; rfl)
        · rw [h1]
          intro o ho
          have hne := List.find?_eq_none.mp hfind o ho
          simpa using hne

/-- C10 witness: construction with a single non-string name fails, and a
successful concrete construction has a nonempty all-string name list. -/
theorem c10_tracker_init_validation_witness :
    (([PyObj.nonStr "int"] = ([] : List PyObj)
        ∨ ∃ o ∈ [PyObj.nonStr "int"], PyObj.isStr o = false)
      ∧ exceptOk (Tracker.init "x" [PyObj.nonStr "int"] false) = false)
    ∧ (Tracker.init "x" [PyObj.str "y"] false = Except.ok yTracker
      ∧ (yTracker.dep_var_names ≠ []
        ∧ ∀ o ∈ yTracker.dep_var_names, PyObj.isStr o = true)) :=
  ⟨⟨by decide, (c10_tracker_init_validation "x" [PyObj.nonStr "int"] false).1 (by decide)⟩,
   by rfl,
   (c10_tracker_init_validation "x" [PyObj.str "y"] false).2 yTracker (by rfl)⟩

/-- C3: `toggled()` drains presses one at a time: if the shared counter for
the toggle's id holds `N` accumulated presses and no further presses occur,
exactly the next `N` calls return true and the `(N+1)`-th returns false,
leaving the counter at zero and the local tally increased by `N`; and every
true-returning call decrements the shared counter by one while incrementing
the local `toggle_count` tally by one. -/
theorem c3_toggled_drains (tg : ToggleState) (counts : List Int) (N : Nat)
    (hid : tg.id < counts.length) (hc : getCount counts tg.id = (N : Int)) :
    (toggledRuns (N + 1) tg counts).2.2 = List.replicate N true ++ [false]
    ∧ (toggledRuns (N + 1) tg counts).1.toggle_count = tg.toggle_count + N
    ∧ getCount (toggledRuns (N + 1) tg counts).2.1 tg.id = 0
    ∧ (∀ tg' : ToggleState, ∀ counts' : List Int, 0 < getCount counts' tg'.id →
        Toggle.toggled tg' counts' =
          ({ id := tg'.id, toggle_count := tg'.toggle_count + 1 },
           counts'.set tg'.id (getCount counts' tg'.id - 1), true)) := by
  have hd := toggledRuns_drain N tg counts hid hc
  exact ⟨hd.1, hd.2.1, hd.2.2, fun tg' counts' hp => toggled_pos hp⟩

/-- C3 witness: with 3 calls against 2 accumulated presses the results are
`true, true, false`, the counter ends at zero and the tally at 2. -/
theorem c3_toggled_drains_witness :
    (({ id := 0, toggle_count := 0 } : ToggleState).id < ([2] : List Int).length
      ∧ getCount [2] ({ id := 0, toggle_count := 0 } : ToggleState).id = ((2 : Nat) : Int))
    ∧ ((toggledRuns (2 + 1) { id := 0, toggle_count := 0 } [2]).2.2
        = List.replicate 2 true ++ [false]
      ∧ (toggledRuns (2 + 1) { id := 0, toggle_count := 0 } [2]).1.toggle_count
          = ({ id := 0, toggle_count := 0 } : ToggleState).toggle_count + 2
      ∧ getCount (toggledRuns (2 + 1) { id := 0, toggle_count := 0 } [2]).2.1
          ({ id := 0, toggle_count := 0 } : ToggleState).id = 0
      ∧ (∀ tg' : ToggleState, ∀ counts' : List Int, 0 < getCount counts' tg'.id →
          Toggle.toggled tg' counts' =
            ({ id := tg'.id, toggle_count := tg'.toggle_count + 1 },
             counts'.set tg'.id (getCount counts' tg'.id - 1), true))) :=
  ⟨⟨by decide, by decide⟩,
   c3_toggled_drains { id := 0, toggle_count := 0 } [2] 2 (by decide) (by decide)⟩

/-- C4: for every interleaving of press events (the only increments) and
`toggled()` polls (the only decrements), every shared counter stays
nonnegative. -/
theorem c4_counters_nonneg (events : List ToggleEvent) (counts : List Int)
    (h : ∀ c ∈ counts, 0 ≤ c) :
    ∀ c ∈ events.foldl toggleStep counts, 0 ≤ c := by
  induction events generalizing counts with
  | nil => exact h
  | cons ev rest ih =>
    rw [List.foldl_cons]
    apply ih
    cases ev with
    | press i =>
      intro c hc
      simp only [toggleStep] at hc
      rcases List.mem_or_eq_of_mem_set hc with h1 | h2
      · exact h c h1
      · rw [h2]
        have := getCount_nonneg counts h i
        omega
    | poll i =>
      intro c hc
      by_cases hp : 0 < getCount counts i
      · have hp' : 0 < getCount counts ({ id := i, toggle_count := 0 } : ToggleState).id := hp
        simp only [toggleStep, toggled_pos hp'] at hc
        rcases List.mem_or_eq_of_mem_set hc with h1 | h2
        · exact h c h1
        · rw [h2]
          have heq : getCount counts ({ id := i, toggle_count := 0 } : ToggleState).id
              = getCount counts i := rfl
          rw [heq]
          omega
      · have hp' : ¬ 0 < getCount counts ({ id := i, toggle_count := 0 } : ToggleState).id := hp
        simp only [toggleStep, toggled_zero hp'] at hc
        exact h c hc

/-- C4 witness: from the freshly allocated one-entry table, a press followed
by two polls keeps every counter nonnegative. -/
theorem c4_counters_nonneg_witness :
    (∀ c ∈ ([0] : List Int), 0 ≤ c)
    ∧ (∀ c ∈ ([ToggleEvent.press 0, ToggleEvent.poll 0,
        ToggleEvent.poll 0].foldl toggleStep [0]), 0 ≤ c) :=
  ⟨by decide, c4_counters_nonneg _ [0] (by decide)⟩

/-- C5 counterexample: with two accumulated presses pending at a single
refresh check of a freshly created monitor (session closed, tally 0), the
check does not cancel them out: it consumes exactly one press, opens the
session (a net state change), and leaves the other press pending. -/
theorem c5_two_presses_do_not_cancel :
    (refreshLiveViewToggle MonitorLV.start [2]).1.lvOpen = true
    ∧ (refreshLiveViewToggle MonitorLV.start [2]).1.lvToggle.toggle_count = 1
    ∧ (refreshLiveViewToggle MonitorLV.start [2]).2 = [1] := by
  decide

/-- C5 (amended): each refresh check consumes at most one pending press; the
invariant "session open iff the cumulative consumed-press tally is odd" holds
at creation and is preserved by every check, so the session state is
re-derived from the parity of consumed presses — but two accumulated presses
are consumed over two successive checks (open then close), not cancelled
within one check. -/
theorem c5_live_view_parity (m : MonitorLV) (counts : List Int)
    (h : m.lvOpen = oddTally m.lvToggle) :
    (refreshLiveViewToggle m counts).1.lvOpen
        = oddTally (refreshLiveViewToggle m counts).1.lvToggle
    ∧ (refreshLiveViewToggle m counts).1.lvToggle.toggle_count
        ≤ m.lvToggle.toggle_count + 1
    ∧ MonitorLV.start.lvOpen = oddTally MonitorLV.start.lvToggle := by
  by_cases hp : 0 < getCount counts m.lvToggle.id
  · simp only [refreshLiveViewToggle, toggled_pos hp, if_true]
    by_cases hodd : (m.lvToggle.toggle_count + 1) % 2 = 1
    · rw [if_pos hodd]
      exact ⟨by simp [oddTally, hodd], by simp, by decide⟩
    · rw [if_neg hodd]
      exact ⟨by simp [oddTally, hodd], by simp, by decide⟩
  · simp only [refreshLiveViewToggle, toggled_zero hp, Bool.false_eq_true, if_false]
    exact ⟨h, by simp, by decide⟩

/-- C5 witness: the parity invariant applied to a fresh monitor with one
pending press. -/
theorem c5_live_view_parity_witness :
    (MonitorLV.start.lvOpen = oddTally MonitorLV.start.lvToggle)
    ∧ ((refreshLiveViewToggle MonitorLV.start [1]).1.lvOpen
        = oddTally (refreshLiveViewToggle MonitorLV.start [1]).1.lvToggle
      ∧ (refreshLiveViewToggle MonitorLV.start [1]).1.lvToggle.toggle_count
          ≤ MonitorLV.start.lvToggle.toggle_count + 1
      ∧ MonitorLV.start.lvOpen = oddTally MonitorLV.start.lvToggle) :=
  ⟨by decide, c5_live_view_parity MonitorLV.start [1] (by decide)⟩

/-- C6: for a tracker id known to the snapshot, the first message bearing
that id triggers a full chart rebuild and records the tracker's subplot
(appends it to the active list); a message for an id that is already active
only updates its data and leaves the active list unchanged; and as long as no
message for a not-yet-active id arrives, no rebuild ever happens. -/
theorem c6_first_rebuild_then_update (s : LVState) (i : Nat) (d : List PyNum)
    (h : i ∈ s.knownIds) :
    (i ∉ s.active →
      processMsg s (some (i, d)) =
        ({ dataOf := assocAppend s.dataOf i d, active := s.active ++ [i] },
          LVAction.rebuilt))
    ∧ (i ∈ s.active →
      processMsg s (some (i, d)) =
        ({ dataOf := assocAppend s.dataOf i d, active := s.active },
          LVAction.updated))
    ∧ (∀ msgs : List (Option (Nat × List PyNum)),
        (∀ p ∈ msgs, ∀ j : Nat, ∀ e : List PyNum, p = some (j, e) → j ∈ s.active) →
        LVAction.rebuilt ∉ (processTrace s msgs).2) := by
  refine ⟨?_, ?_, fun msgs hcond => trace_no_rebuild msgs s hcond⟩
  · intro hna
    simp only [processMsg]
    rw [if_pos h, if_neg hna]
  · intro ha
    simp only [processMsg]
    rw [if_pos h, if_pos ha]

/-- C6 witness: in a snapshot knowing id 0 with nothing active yet, the first
message for id 0 rebuilds and activates it. -/
theorem c6_first_rebuild_then_update_witness :
    (0 ∈ LVState.knownIds { dataOf := [(0, [])], active := [] })
    ∧ ((0 ∉ ({ dataOf := [(0, [])], active := [] } : LVState).active →
        processMsg { dataOf := [(0, [])], active := [] } (some (0, [PyNum.pint 7])) =
          ({ dataOf := assocAppend [(0, [])] 0 [PyNum.pint 7],
             active := ([] : List Nat) ++ [0] }, LVAction.rebuilt))
      ∧ (0 ∈ ({ dataOf := [(0, [])], active := [] } : LVState).active →
        processMsg { dataOf := [(0, [])], active := [] } (some (0, [PyNum.pint 7])) =
          ({ dataOf := assocAppend [(0, [])] 0 [PyNum.pint 7],
             active := ([] : List Nat) }, LVAction.updated))
      ∧ (∀ msgs : List (Option (Nat × List PyNum)),
          (∀ p ∈ msgs, ∀ j : Nat, ∀ e : List PyNum, p = some (j, e) →
            j ∈ ({ dataOf := [(0, [])], active := [] } : LVState).active) →
          LVAction.rebuilt ∉
            (processTrace { dataOf := [(0, [])], active := [] } msgs).2)) :=
  ⟨by decide, c6_first_rebuild_then_update
    { dataOf := [(0, [])], active := [] } 0 [PyNum.pint 7] (by decide)⟩

/-- C8: over any sequence of incremental axis-limit updates from well-formed
limits, the limits expand monotonically (never shrink), stay well-formed, and
after the whole sequence they cover every sample value seen. -/
theorem c8_axes_limits_expand (lim : Limits) (samples : List (ℚ × List ℚ))
    (hx : lim.xmin ≤ lim.xmax) (hy : lim.ymin ≤ lim.ymax) :
    ((samples.foldl updateAxes lim).xmin ≤ lim.xmin
      ∧ lim.xmax ≤ (samples.foldl updateAxes lim).xmax
      ∧ (samples.foldl updateAxes lim).ymin ≤ lim.ymin
      ∧ lim.ymax ≤ (samples.foldl updateAxes lim).ymax)
    ∧ ((samples.foldl updateAxes lim).xmin ≤ (samples.foldl updateAxes lim).xmax
      ∧ (samples.foldl updateAxes lim).ymin ≤ (samples.foldl updateAxes lim).ymax)
    ∧ (∀ s ∈ samples,
        (samples.foldl updateAxes lim).xmin ≤ s.1
        ∧ s.1 ≤ (samples.foldl updateAxes lim).xmax
        ∧ ∀ v ∈ s.2, (samples.foldl updateAxes lim).ymin ≤ v
            ∧ v ≤ (samples.foldl updateAxes lim).ymax) := by
  induction samples generalizing lim with
  | nil =>
    exact ⟨⟨le_refl _, le_refl _, le_refl _, le_refl _⟩, ⟨hx, hy⟩, by simp⟩
  | cons sm t ih =>
    have hstep := updateAxes_expand lim sm hx hy
    have hrec := ih (updateAxes lim sm) hstep.2.1.1 hstep.2.1.2
    rw [List.foldl_cons]
    refine ⟨⟨le_trans hrec.1.1 hstep.1.1, le_trans hstep.1.2.1 hrec.1.2.1,
      le_trans hrec.1.2.2.1 hstep.1.2.2.1, le_trans hstep.1.2.2.2 hrec.1.2.2.2⟩,
      hrec.2.1, ?_⟩
    intro u hu
    rcases List.mem_cons.mp hu with h1 | h2
    · subst h1
      refine ⟨le_trans hrec.1.1 hstep.2.2.1.1, le_trans hstep.2.2.1.2 hrec.1.2.1, ?_⟩
      intro v hv
      exact ⟨le_trans hrec.1.2.2.1 (hstep.2.2.2 v hv).1,
        le_trans (hstep.2.2.2 v hv).2 hrec.1.2.2.2⟩
    · exact hrec.2.2 u h2

/-- C8 witness: the expansion theorem applied to concrete limits `[0,1]x[0,1]`
and the single sample `(2, [3])`. -/
theorem c8_axes_limits_expand_witness :
    (limSample.xmin ≤ limSample.xmax ∧ limSample.ymin ≤ limSample.ymax)
    ∧ (((ptSample.foldl updateAxes limSample).xmin ≤ limSample.xmin
        ∧ limSample.xmax ≤ (ptSample.foldl updateAxes limSample).xmax
        ∧ (ptSample.foldl updateAxes limSample).ymin ≤ limSample.ymin
        ∧ limSample.ymax ≤ (ptSample.foldl updateAxes limSample).ymax)
      ∧ ((ptSample.foldl updateAxes limSample).xmin
          ≤ (ptSample.foldl updateAxes limSample).xmax
        ∧ (ptSample.foldl updateAxes limSample).ymin
          ≤ (ptSample.foldl updateAxes limSample).ymax)
      ∧ (∀ s ∈ ptSample,
          (ptSample.foldl updateAxes limSample).xmin ≤ s.1
          ∧ s.1 ≤ (ptSample.foldl updateAxes limSample).xmax
          ∧ ∀ v ∈ s.2, (ptSample.foldl updateAxes limSample).ymin ≤ v
              ∧ v ≤ (ptSample.foldl updateAxes limSample).ymax)) :=
  ⟨⟨zero_le_one, zero_le_one⟩,
   c8_axes_limits_expand limSample ptSample zero_le_one zero_le_one⟩

end Simmon
